import Mathlib

/-!
Verification of the integration-state logic of the gh-enterprise-launcher
browser extension, as a shallow embedding in Lean.

JavaScript strings are modelled as `List Char`.  The embedded functions are
translated from the repository's source:

* `deriveWorkspaceName` — background service worker (`deriveWorkspaceName`),
* `generateWorkspaceName` — older content script,
* `buildLauncherUrl` — content script placeholder substitution,
* `checkWorkspace`, `verifyConnection`, `startWorkspace`, `stopWorkspace`,
  `getTemplates` and the `CHECK_WORKSPACE` message-handler branch — background
  service worker.

Remote HTTP interactions are modelled by an `ApiOutcome` value describing the
single request each operation performs: a parsed success body, an HTTP error
status (the thrown error carrying `error.status`), or a transport failure
carrying only a message.
-/

/-- ASCII lowercasing of a single character, the effect of
JavaScript `toLowerCase` on ASCII input.  Characters outside `[a-z0-9-]`
are replaced by a dash immediately afterwards in every pipeline below, so
only the ASCII case mapping is observable in the derived name. -/
def asciiLower (c : Char) : Char :=
  if 'A' ≤ c ∧ c ≤ 'Z' then Char.ofNat (c.toNat + 32) else c

/-- Characters admitted by the workspace-name charset `[a-z0-9-]`. -/
def isNameChar (c : Char) : Bool :=
  ('a' ≤ c && c ≤ 'z') || ('0' ≤ c && c ≤ '9') || c = '-'

/-- Characters in `[a-z0-9]`. -/
def isAlnumLower (c : Char) : Bool :=
  ('a' ≤ c && c ≤ 'z') || ('0' ≤ c && c ≤ '9')

/-- The global replacement of every character outside `[a-z0-9-]` by a dash,
applied to one character. -/
def sanitizeChar (c : Char) : Char :=
  if isNameChar c then c else '-'

/-- The global replacement of slash, underscore and dot by a dash, applied
to one character (older content script only). -/
def sanitizeSlashDot (c : Char) : Char :=
  if c = '/' ∨ c = '_' ∨ c = '.' then '-' else c

/-- The global replacement of each maximal dash run by one dash.
Realised by dropping a dash whenever the next character is also a dash. -/
def collapseDashes : List Char → List Char
  | [] => []
  | [c] => [c]
  | a :: b :: t =>
    if a = '-' ∧ b = '-' then collapseDashes (b :: t)
    else a :: collapseDashes (b :: t)

/-- The start-anchored alternative of the leading-or-trailing-dash
replacement: one leading dash is removed. -/
def dropLeadDash : List Char → List Char
  | [] => []
  | a :: rest => if a = '-' then rest else a :: rest

/-- The end-anchored alternative of the leading-or-trailing-dash
replacement: one trailing dash is removed. -/
def dropTrailDash (s : List Char) : List Char :=
  (dropLeadDash s.reverse).reverse

/-- The global leading-or-trailing-dash replacement: at most one leading and
one trailing dash are removed (the anchored regex cannot match twice at
either end of one string). -/
def jsTrimDashes (s : List Char) : List Char :=
  dropTrailDash (dropLeadDash s)

/-- `deriveWorkspaceName(repo, branch)` from the background service worker:
lowercase `repo + "-" + branch`, replace invalid characters with hyphens,
collapse hyphen runs, trim a leading/trailing hyphen, `slice(0, 32)`. -/
def deriveWorkspaceName (repo branch : List Char) : List Char :=
  List.take 32 (jsTrimDashes (collapseDashes
    (List.map sanitizeChar (List.map asciiLower (repo ++ '-' :: branch)))))

/-- JavaScript `String.prototype.lastIndexOf` for a single character:
`-1` when the character does not occur, otherwise the largest index. -/
def jsLastIndexOf (c : Char) : List Char → Int
  | [] => -1
  | a :: rest =>
    let r := jsLastIndexOf c rest
    if 0 ≤ r then r + 1 else if a = c then 0 else -1

/-- The `sanitized` constant of `generateWorkspaceName` in the older content
script: the sanitising pipeline with the extra slash-underscore-dot
replacement, collapse and trim. -/
def gwSanitized (repo branch : List Char) : List Char :=
  jsTrimDashes (collapseDashes (List.map sanitizeChar
    (List.map sanitizeSlashDot (List.map asciiLower (repo ++ '-' :: branch)))))

/-- The `truncated` constant of `generateWorkspaceName`: the plain cut of
the sanitised name at 30 characters. -/
def gwTruncated (repo branch : List Char) : List Char :=
  List.take 30 (gwSanitized repo branch)

/-- `generateWorkspaceName(repo, branch)` from the older content script:
the sanitised name when it already fits in 30 characters; otherwise a
truncation that prefers to cut at a dash boundary past index 20 and
otherwise strips a trailing dash from the plain 30-character cut. -/
def generateWorkspaceName (repo branch : List Char) : List Char :=
  if (gwSanitized repo branch).length ≤ 30 then gwSanitized repo branch
  else if 20 < jsLastIndexOf '-' (gwTruncated repo branch) then
    List.take (jsLastIndexOf '-' (gwTruncated repo branch)).toNat
      (gwTruncated repo branch)
  else dropTrailDash (gwTruncated repo branch)

/-- The regular expression `^[a-z0-9]([a-z0-9-]*[a-z0-9])?$` from the claim,
together with the empty string: nonempty strings must start and end in
`[a-z0-9]` and contain only `[a-z0-9-]`. -/
def matchesNameRegex : List Char → Bool
  | [] => true
  | c :: rest =>
    isAlnumLower c && List.all (c :: rest) isNameChar &&
      (match List.getLast? (c :: rest) with
        | some x => isAlnumLower x
        | none => false)

/-- Dropping a matched run never lengthens a list. -/
theorem dropWhile_length_le (p : Char → Bool) (l : List Char) :
    (l.dropWhile p).length ≤ l.length := by
  induction l with
  | nil => simp
  | cons a t ih =>
    by_cases h : p a = true
    · simp only [List.dropWhile_cons, h, if_true]
      exact Nat.le_trans ih (Nat.le_succ _)
    · simp [List.dropWhile_cons, h]

/-- Modelled from the spec's §3 WorkspaceName pipeline: collapse consecutive
dash runs to a single dash by skipping the rest of each run. -/
def specCollapse : List Char → List Char
  | [] => []
  | c :: rest =>
    if c = '-' then '-' :: specCollapse (rest.dropWhile (fun x => decide (x = '-')))
    else c :: specCollapse rest
termination_by s => s.length
decreasing_by
  · have := dropWhile_length_le (fun x => decide (x = '-')) rest
    simp only [List.length_cons]
    omega
  · simp

/-- Modelled from the spec's §3 WorkspaceName pipeline: trim all leading and
trailing dashes. -/
def specTrimDashes (s : List Char) : List Char :=
  (((s.dropWhile (fun c => decide (c = '-'))).reverse.dropWhile
    (fun c => decide (c = '-'))).reverse)

/-- Modelled from the spec's §3 WorkspaceName reference pipeline: lowercase
the concatenation `repository + "-" + branch`, replace every character
outside `[a-z0-9-]` with `-`, collapse consecutive `-` runs to one, trim
leading/trailing `-`, then truncate to the maximum name length (32 in the
background service worker). -/
def specDeriveName (repo branch : List Char) : List Char :=
  List.take 32 (specTrimDashes (specCollapse
    (List.map (fun c => if isNameChar c then c else '-')
      (List.map asciiLower (repo ++ '-' :: branch)))))

/-- Adjacent characters are never both dashes. -/
def noDD (a b : Char) : Prop := ¬(a = '-' ∧ b = '-')

/-- Every character produced by the sanitising replacement lies in the
workspace-name charset. -/
theorem sanitizeChar_mem_charset (c : Char) : isNameChar (sanitizeChar c) = true := by
  unfold sanitizeChar
  by_cases h : isNameChar c = true
  · rw [if_pos h]
    exact h
  · rw [if_neg h]
    decide

/-- Collapsing dash runs preserves the head of the list. -/
theorem collapseDashes_head (l : List Char) : (collapseDashes l).head? = l.head? := by
  induction l using collapseDashes.induct with
  | case1 => rfl
  | case2 c => rfl
  | case3 a b t h ih =>
    obtain ⟨ha, hb⟩ := h
    subst ha
    subst hb
    simp only [collapseDashes, if_pos (And.intro rfl rfl)]
    simpa using ih
  | case4 a b t h ih =>
    simp [collapseDashes, h]

/-- The output of `collapseDashes` never has two adjacent dashes. -/
theorem collapseDashes_chain (l : List Char) :
    List.Chain' noDD (collapseDashes l) := by
  induction l using collapseDashes.induct with
  | case1 => simp [collapseDashes]
  | case2 c => simp [collapseDashes]
  | case3 a b t h ih =>
    obtain ⟨ha, hb⟩ := h
    subst ha
    subst hb
    simpa [collapseDashes] using ih
  | case4 a b t h ih =>
    simp only [collapseDashes, if_neg h]
    refine List.chain'_cons'.mpr ⟨?_, ih⟩
    intro y hy
    rw [collapseDashes_head] at hy
    simp only [List.head?_cons, Option.mem_def, Option.some.injEq] at hy
    subst hy
    exact h

/-- Membership is reflected through `collapseDashes`. -/
theorem mem_collapseDashes {c : Char} {l : List Char}
    (h : c ∈ collapseDashes l) : c ∈ l := by
  induction l using collapseDashes.induct with
  | case1 => simpa [collapseDashes] using h
  | case2 d => simpa [collapseDashes] using h
  | case3 a b t hd ih =>
    simp only [collapseDashes, if_pos hd] at h
    exact List.mem_cons_of_mem a (ih h)
  | case4 a b t hd ih =>
    simp only [collapseDashes, if_neg hd, List.mem_cons] at h
    rcases h with h | h
    · exact h ▸ List.mem_cons_self a _
    · exact List.mem_cons_of_mem a (ih h)

/-- Removing one leading dash yields a suffix. -/
theorem dropLeadDash_suffix (s : List Char) : dropLeadDash s <:+ s := by
  cases s with
  | nil => exact List.suffix_refl []
  | cons a rest =>
    simp only [dropLeadDash]
    by_cases h : a = '-'
    · rw [if_pos h]
      exact List.suffix_cons a rest
    · rw [if_neg h]

/-- Removing one trailing dash yields an initial segment of the original
list. -/
theorem dropTrailDash_isPre (s : List Char) : dropTrailDash s <+: s := by
  unfold dropTrailDash
  obtain ⟨t, ht⟩ := dropLeadDash_suffix s.reverse
  refine ⟨t.reverse, ?_⟩
  rw [← List.reverse_append, ht, List.reverse_reverse]

/-- The js one-sided trim yields a sublist of the original list. -/
theorem jsTrimDashes_sublist (s : List Char) : List.Sublist (jsTrimDashes s) s := by
  unfold jsTrimDashes
  exact ((dropTrailDash_isPre (dropLeadDash s)).sublist).trans
    (dropLeadDash_suffix s).sublist

/-- On a list without adjacent dashes, removing one leading dash removes
them all. -/
theorem dropLeadDash_eq_dropWhile {s : List Char}
    (h : List.Chain' noDD s) :
    dropLeadDash s = s.dropWhile (fun c => decide (c = '-')) := by
  cases s with
  | nil => rfl
  | cons a rest =>
    simp only [dropLeadDash]
    by_cases ha : a = '-'
    · subst ha
      rw [if_pos rfl]
      simp only [List.dropWhile_cons]
      cases rest with
      | nil => simp
      | cons b t =>
        have hb : noDD '-' b := (List.chain'_cons.mp h).1
        have hb2 : ¬(b = '-') := fun hb3 => hb ⟨rfl, hb3⟩
        simp [List.dropWhile_cons, hb2]
    · rw [if_neg ha]
      simp [List.dropWhile_cons, ha]

/-- A chain without adjacent dashes reverses to another such chain. -/
theorem chain_noDD_reverse {s : List Char} (h : List.Chain' noDD s) :
    List.Chain' noDD s.reverse := by
  rw [List.chain'_reverse]
  exact h.imp (fun a b hab => fun hc => hab ⟨hc.2, hc.1⟩)

/-- On a list without adjacent dashes the js trim equals the full trim
of the spec. -/
theorem jsTrimDashes_eq_specTrim {s : List Char}
    (h : List.Chain' noDD s) : jsTrimDashes s = specTrimDashes s := by
  unfold jsTrimDashes specTrimDashes dropTrailDash
  rw [dropLeadDash_eq_dropWhile h]
  rw [dropLeadDash_eq_dropWhile]
  exact chain_noDD_reverse (h.suffix (List.dropWhile_suffix _))

/-- Dropping leading dashes from a list starting with a dash skips that
dash. -/
theorem dropWhile_dash_cons_dash (t : List Char) :
    List.dropWhile (fun x => decide (x = '-')) ('-' :: t) =
      List.dropWhile (fun x => decide (x = '-')) t := by
  simp [List.dropWhile_cons]

/-- Dropping leading dashes from a list starting with a non-dash is the
identity. -/
theorem dropWhile_dash_cons_ne {b : Char} (t : List Char) (hb : ¬(b = '-')) :
    List.dropWhile (fun x => decide (x = '-')) (b :: t) = b :: t := by
  simp [List.dropWhile_cons, hb]

/-- The two collapse formulations agree. -/
theorem specCollapse_eq_collapseDashes (l : List Char) :
    specCollapse l = collapseDashes l := by
  induction l using collapseDashes.induct with
  | case1 => exact specCollapse.eq_1
  | case2 c =>
    rw [specCollapse.eq_2]
    by_cases h : c = '-'
    · simp [h, specCollapse.eq_1, collapseDashes]
    · simp [h, specCollapse.eq_1, collapseDashes]
  | case3 a b t h ih =>
    obtain ⟨ha, hb⟩ := h
    subst ha
    subst hb
    rw [specCollapse.eq_2, if_pos rfl, dropWhile_dash_cons_dash]
    rw [specCollapse.eq_2, if_pos rfl] at ih
    rw [ih]
    simp [collapseDashes]
  | case4 a b t h ih =>
    simp only [collapseDashes, if_neg h]
    by_cases ha : a = '-'
    · subst ha
      have hb : ¬(b = '-') := fun hb2 => h ⟨rfl, hb2⟩
      rw [specCollapse.eq_2, if_pos rfl, dropWhile_dash_cons_ne t hb]
      rw [ih]
    · rw [specCollapse.eq_2, if_neg ha, ih]

/-- After removing one leading dash from a list without adjacent dashes,
the head is never a dash. -/
theorem head_ne_dash_of_dropLead {s : List Char} (h : List.Chain' noDD s)
    {c : Char} (hc : (dropLeadDash s).head? = some c) : ¬(c = '-') := by
  cases s with
  | nil => simp [dropLeadDash] at hc
  | cons a rest =>
    simp only [dropLeadDash] at hc
    by_cases ha : a = '-'
    · rw [if_pos ha] at hc
      subst ha
      cases rest with
      | nil => simp at hc
      | cons b t =>
        simp only [List.head?_cons, Option.some.injEq] at hc
        have hrel : noDD '-' b := (List.chain'_cons.mp h).1
        exact fun hd => hrel ⟨rfl, hc.trans hd⟩
    · rw [if_neg ha] at hc
      simp only [List.head?_cons, Option.some.injEq] at hc
      subst hc
      exact ha

/-- A nonempty prefix starts with the same head as the full list. -/
theorem head_eq_of_isPre {p t : List Char} (h : p <+: t) {c : Char}
    (hc : p.head? = some c) : t.head? = some c := by
  obtain ⟨r, rfl⟩ := h
  cases p with
  | nil => simp at hc
  | cons x xs =>
    simp only [List.head?_cons, Option.some.injEq] at hc
    simp [hc]

/-- After removing one trailing dash from a list without adjacent dashes,
the last character is never a dash. -/
theorem last_ne_dash_of_dropTrail {t : List Char} (h : List.Chain' noDD t)
    {c : Char} (hc : (dropTrailDash t).getLast? = some c) : ¬(c = '-') := by
  unfold dropTrailDash at hc
  rw [List.getLast?_reverse] at hc
  exact head_ne_dash_of_dropLead (chain_noDD_reverse h) hc

/-- The head after the js trim of a dash-collapsed list is never a dash. -/
theorem jsTrim_head_ne_dash {X : List Char} (h : List.Chain' noDD X)
    {c : Char} (hc : (jsTrimDashes X).head? = some c) : ¬(c = '-') := by
  unfold jsTrimDashes at hc
  exact head_ne_dash_of_dropLead h
    (head_eq_of_isPre (dropTrailDash_isPre (dropLeadDash X)) hc)

/-- The last character after the js trim of a dash-collapsed list is never
a dash. -/
theorem jsTrim_last_ne_dash {X : List Char} (h : List.Chain' noDD X)
    {c : Char} (hc : (jsTrimDashes X).getLast? = some c) : ¬(c = '-') := by
  unfold jsTrimDashes at hc
  exact last_ne_dash_of_dropTrail (h.suffix (dropLeadDash_suffix X)) hc

/-- A chain restricted to an initial segment is still a chain. -/
theorem chain_of_isPre {l m : List Char} (hp : l <+: m)
    (h : List.Chain' noDD m) : List.Chain' noDD l := by
  obtain ⟨t, rfl⟩ := hp
  exact h.left_of_append

/-- Taking an initial segment of a list yields an initial segment. -/
theorem take_isPre (n : Nat) (l : List Char) : List.take n l <+: l :=
  ⟨List.drop n l, List.take_append_drop n l⟩

/-- The js trim preserves the no-adjacent-dash invariant. -/
theorem jsTrim_chain {X : List Char} (h : List.Chain' noDD X) :
    List.Chain' noDD (jsTrimDashes X) := by
  unfold jsTrimDashes
  exact chain_of_isPre (dropTrailDash_isPre _)
    (h.suffix (dropLeadDash_suffix X))

/-- Every character surviving the full sanitising pipeline lies in the
workspace-name charset. -/
theorem sanitized_mem_charset {l : List Char} {c : Char}
    (hc : c ∈ jsTrimDashes (collapseDashes (List.map sanitizeChar l))) :
    isNameChar c = true := by
  have h1 : c ∈ collapseDashes (List.map sanitizeChar l) :=
    (jsTrimDashes_sublist _).subset hc
  obtain ⟨x, _, rfl⟩ := List.mem_map.mp (mem_collapseDashes h1)
  exact sanitizeChar_mem_charset x

/-- A charset character that is not a dash is lowercase alphanumeric. -/
theorem nameChar_alnum {c : Char} (h : isNameChar c = true)
    (hd : ¬(c = '-')) : isAlnumLower c = true := by
  simp only [isNameChar, isAlnumLower, Bool.or_eq_true, Bool.and_eq_true,
    decide_eq_true_eq] at *
  rcases h with h | h
  · exact h
  · exact absurd h hd

/-- Taking a positive number of elements preserves the head. -/
theorem head?_take_pos {l : List Char} {n : Nat} (hn : 0 < n) :
    (List.take n l).head? = l.head? := by
  cases n with
  | zero => omega
  | succ m => cases l <;> simp

/-- A nonempty list whose characters lie in the charset and whose first and
last characters are not dashes matches the workspace-name regular
expression; the empty list matches trivially. -/
theorem matchesNameRegex_of_props {s : List Char}
    (hall : ∀ c ∈ s, isNameChar c = true)
    (hhead : ∀ c, s.head? = some c → ¬(c = '-'))
    (hlast : ∀ c, s.getLast? = some c → ¬(c = '-')) :
    matchesNameRegex s = true := by
  cases s with
  | nil => rfl
  | cons a rest =>
    simp only [matchesNameRegex, Bool.and_eq_true]
    refine ⟨⟨?_, ?_⟩, ?_⟩
    · exact nameChar_alnum (hall a (List.mem_cons_self a rest)) (hhead a rfl)
    · exact List.all_eq_true.mpr hall
    · cases hx : (a :: rest).getLast? with
      | none => simp at hx
      | some x =>
        simp only []
        exact nameChar_alnum (hall x (List.mem_of_mem_getLast? hx)) (hlast x hx)

/-- A nonnegative result of `jsLastIndexOf` points at an occurrence of the
character. -/
theorem jsLastIndexOf_getElem {c : Char} :
    ∀ {l : List Char} {i : Int}, jsLastIndexOf c l = i → 0 ≤ i →
      l[i.toNat]? = some c := by
  intro l
  induction l with
  | nil =>
    intro i hi h0
    simp only [jsLastIndexOf] at hi
    omega
  | cons a rest ih =>
    intro i hi h0
    simp only [jsLastIndexOf] at hi
    by_cases hr : 0 ≤ jsLastIndexOf c rest
    · rw [if_pos hr] at hi
      have hnat : i.toNat = (jsLastIndexOf c rest).toNat + 1 := by omega
      rw [hnat]
      simpa using ih rfl hr
    · rw [if_neg hr] at hi
      by_cases hac : a = c
      · rw [if_pos hac] at hi
        have hnat : i.toNat = 0 := by omega
        rw [hnat]
        simp [hac]
      · rw [if_neg hac] at hi
        omega

/-- `jsLastIndexOf` always returns an index below the length. -/
theorem jsLastIndexOf_lt_length (c : Char) (l : List Char) :
    jsLastIndexOf c l < (l.length : Int) := by
  induction l with
  | nil => simp [jsLastIndexOf]
  | cons a rest ih =>
    simp only [jsLastIndexOf, List.length_cons]
    by_cases hr : 0 ≤ jsLastIndexOf c rest
    · rw [if_pos hr]
      push_cast
      omega
    · rw [if_neg hr]
      by_cases hac : a = c
      · rw [if_pos hac]
        push_cast
        omega
      · rw [if_neg hac]
        push_cast
        omega

/-- The last element of a positive-length take is the element just before
the cut. -/
theorem getLast?_take_of_le {l : List Char} {i : Nat} (h0 : 0 < i)
    (hi : i ≤ l.length) : (List.take i l).getLast? = l[i - 1]? := by
  rw [List.getLast?_eq_getElem?]
  have hlen : (List.take i l).length = i := by
    rw [List.length_take]
    omega
  rw [hlen, List.getElem?_take, if_pos (by omega)]

/-- Characters of the older script's sanitised name lie in the charset. -/
theorem gwSanitized_mem_charset {repo branch : List Char} {c : Char}
    (hc : c ∈ gwSanitized repo branch) : isNameChar c = true :=
  sanitized_mem_charset hc

/-- The older script's sanitised name has no adjacent dashes. -/
theorem gwSanitized_chain (repo branch : List Char) :
    List.Chain' noDD (gwSanitized repo branch) :=
  jsTrim_chain (collapseDashes_chain _)

/-- The older script's sanitised name never starts with a dash. -/
theorem gwSanitized_head {repo branch : List Char} {c : Char}
    (hc : (gwSanitized repo branch).head? = some c) : ¬(c = '-') :=
  jsTrim_head_ne_dash (collapseDashes_chain _) hc

/-- The older script's sanitised name never ends with a dash. -/
theorem gwSanitized_last {repo branch : List Char} {c : Char}
    (hc : (gwSanitized repo branch).getLast? = some c) : ¬(c = '-') :=
  jsTrim_last_ne_dash (collapseDashes_chain _) hc

/-- The older script's `generateWorkspaceName` always yields the empty
string or a name matching the workspace-name regular expression: the
dash-aware truncation never leaves a leading or trailing dash. -/
theorem generateWorkspaceName_valid (repo branch : List Char) :
    matchesNameRegex (generateWorkspaceName repo branch) = true := by
  unfold generateWorkspaceName
  by_cases hlen : (gwSanitized repo branch).length ≤ 30
  · rw [if_pos hlen]
    exact matchesNameRegex_of_props (fun c hc => gwSanitized_mem_charset hc)
      (fun c hc => gwSanitized_head hc) (fun c hc => gwSanitized_last hc)
  · rw [if_neg hlen]
    have hslen : 30 < (gwSanitized repo branch).length := by omega
    have htlen : (gwTruncated repo branch).length = 30 := by
      unfold gwTruncated
      rw [List.length_take]
      omega
    have htall : ∀ c ∈ gwTruncated repo branch, isNameChar c = true :=
      fun c hc => gwSanitized_mem_charset (List.take_subset _ _ hc)
    have htchain : List.Chain' noDD (gwTruncated repo branch) :=
      chain_of_isPre (take_isPre _ _) (gwSanitized_chain repo branch)
    have hthead : (gwTruncated repo branch).head? =
        (gwSanitized repo branch).head? := head?_take_pos (by omega)
    by_cases hld : 20 < jsLastIndexOf '-' (gwTruncated repo branch)
    · rw [if_pos hld]
      have h0 : 0 ≤ jsLastIndexOf '-' (gwTruncated repo branch) := by omega
      have hlt := jsLastIndexOf_lt_length '-' (gwTruncated repo branch)
      have hi21 : 21 ≤ (jsLastIndexOf '-' (gwTruncated repo branch)).toNat := by
        omega
      have hilt : (jsLastIndexOf '-' (gwTruncated repo branch)).toNat <
          (gwTruncated repo branch).length := by omega
      have hget : (gwTruncated repo branch)[(jsLastIndexOf '-'
          (gwTruncated repo branch)).toNat]? = some '-' :=
        jsLastIndexOf_getElem rfl h0
      apply matchesNameRegex_of_props
      · intro c hc
        exact htall c (List.take_subset _ _ hc)
      · intro c hc
        rw [head?_take_pos (by omega), hthead] at hc
        exact gwSanitized_head hc
      · intro c hc
        rw [getLast?_take_of_le (by omega) (by omega)] at hc
        intro hcd
        obtain ⟨hm, he⟩ := List.getElem?_eq_some.mp hc
        obtain ⟨hm2, he2⟩ := List.getElem?_eq_some.mp hget
        have hchain := List.chain'_iff_get.mp htchain
          ((jsLastIndexOf '-' (gwTruncated repo branch)).toNat - 1) (by omega)
        apply hchain
        constructor
        · show (gwTruncated repo branch).get _ = '-'
          simp only [List.get_eq_getElem]
          rw [he]
          exact hcd
        · show (gwTruncated repo branch).get _ = '-'
          simp only [List.get_eq_getElem]
          have hidx : (jsLastIndexOf '-' (gwTruncated repo branch)).toNat - 1 + 1 =
              (jsLastIndexOf '-' (gwTruncated repo branch)).toNat := by omega
          simp only [hidx]
          exact he2
    · rw [if_neg hld]
      apply matchesNameRegex_of_props
      · intro c hc
        exact htall c ((dropTrailDash_isPre _).sublist.subset hc)
      · intro c hc
        have h2 := head_eq_of_isPre (dropTrailDash_isPre _) hc
        rw [hthead] at h2
        exact gwSanitized_head h2
      · intro c hc
        exact last_ne_dash_of_dropTrail htchain hc

/-- C1 (amended): every output of `deriveWorkspaceName` consists only of
characters in `[a-z0-9-]` and never starts with a dash, and every output of
the older `generateWorkspaceName` is the empty string or matches the full
regular expression `^[a-z0-9]([a-z0-9-]*[a-z0-9])?$`; the 32-character
`slice` of `deriveWorkspaceName`, however, can leave a trailing dash, so
only the weaker property holds for it. -/
theorem claim_c1_amended (repo branch : List Char) :
    (∀ c ∈ deriveWorkspaceName repo branch, isNameChar c = true) ∧
    (∀ c, (deriveWorkspaceName repo branch).head? = some c →
      isAlnumLower c = true) ∧
    matchesNameRegex (generateWorkspaceName repo branch) = true := by
  refine ⟨?_, ?_, generateWorkspaceName_valid repo branch⟩
  · intro c hc
    exact sanitized_mem_charset (List.take_subset _ _ hc)
  · intro c hc
    have hmem : c ∈ deriveWorkspaceName repo branch :=
      List.mem_of_mem_head? hc
    have hcs : isNameChar c = true :=
      sanitized_mem_charset (List.take_subset _ _ hmem)
    unfold deriveWorkspaceName at hc
    rw [head?_take_pos (by omega)] at hc
    exact nameChar_alnum hcs (jsTrim_head_ne_dash (collapseDashes_chain _) hc)

/-- C1 (witness): the amended claim evaluated on the spec's own example
inputs. -/
theorem claim_c1_amended_witness :
    isNameChar 'm' = true ∧ isAlnumLower 'm' = true ∧
      matchesNameRegex (generateWorkspaceName ("My_Repo".toList)
        ("feature/foo".toList)) = true :=
  ⟨(claim_c1_amended ("My_Repo".toList) ("feature/foo".toList)).1 'm'
      (by decide),
   (claim_c1_amended ("My_Repo".toList) ("feature/foo".toList)).2.1 'm'
      (by decide),
   (claim_c1_amended ("My_Repo".toList) ("feature/foo".toList)).2.2⟩

/-- C1 (counterexample): for a 31-character repository name and branch `b`,
`deriveWorkspaceName` returns 31 copies of `a` followed by a dash — a
nonempty string that fails `^[a-z0-9]([a-z0-9-]*[a-z0-9])?$` because the
truncation to 32 characters happens after the trim and cuts just past a
hyphen. -/
theorem claim_c1_counterexample :
    deriveWorkspaceName (List.replicate 31 'a') ['b'] ≠ [] ∧
      matchesNameRegex (deriveWorkspaceName (List.replicate 31 'a') ['b']) =
        false := by
  constructor
  · decide
  · decide

/-- C7: `deriveWorkspaceName` coincides with the spec's reference pipeline
(lowercase, sanitise to `[a-z0-9-]`, collapse dash runs, trim edge dashes,
truncate to the 32-character limit), and its output length never exceeds
32; determinism holds because the embedding is a pure function of its two
arguments. -/
theorem claim_c7 (repo branch : List Char) :
    deriveWorkspaceName repo branch = specDeriveName repo branch ∧
    (deriveWorkspaceName repo branch).length ≤ 32 := by
  constructor
  · unfold deriveWorkspaceName specDeriveName
    rw [specCollapse_eq_collapseDashes,
      ← jsTrimDashes_eq_specTrim (collapseDashes_chain
        (List.map (fun c => if isNameChar c then c else '-')
          (List.map asciiLower (repo ++ '-' :: branch))))]
    have hfun : (fun c => if isNameChar c then c else '-') = sanitizeChar :=
      rfl
    rw [hfun]
  · unfold deriveWorkspaceName
    rw [List.length_take]
    omega

/-- The opening curly brace character. -/
def lbrace : Char := Char.ofNat 123

/-- The closing curly brace character. -/
def rbrace : Char := Char.ofNat 125

/-- The characters `encodeURIComponent` leaves unescaped: ASCII
alphanumerics and `- _ . ! ~ *` together with the apostrophe and the two
parentheses. -/
def isUnreservedURI (c : Char) : Bool :=
  ('A' ≤ c && c ≤ 'Z') || ('a' ≤ c && c ≤ 'z') || ('0' ≤ c && c ≤ '9') ||
    c = '-' || c = '_' || c = '.' || c = '!' || c = '~' || c = '*' ||
    c = Char.ofNat 39 || c = '(' || c = ')'

/-- Uppercase hexadecimal digit of `n % 16`. -/
def hexDigitUpper (n : Nat) : Char :=
  if n % 16 < 10 then Char.ofNat (48 + n % 16) else Char.ofNat (55 + n % 16)

/-- Percent-escape of one byte, e.g. 47 becomes the three characters of
the escape for a slash. -/
def percentByte (b : Nat) : List Char :=
  ['%', hexDigitUpper (b / 16), hexDigitUpper b]

/-- UTF-8 bytes of a code point. -/
def utf8Bytes (n : Nat) : List Nat :=
  if n < 128 then [n]
  else if n < 2048 then [192 + n / 64, 128 + n % 64]
  else if n < 65536 then [224 + n / 4096, 128 + n / 64 % 64, 128 + n % 64]
  else [240 + n / 262144, 128 + n / 4096 % 64, 128 + n / 64 % 64,
    128 + n % 64]

/-- JavaScript `encodeURIComponent`: unreserved characters are copied,
every other character is replaced by the percent escapes of its UTF-8
bytes. -/
def encodeURIComponent (s : List Char) : List Char :=
  (s.map (fun c =>
    if isUnreservedURI c then [c]
    else ((utf8Bytes c.toNat).map percentByte).flatten)).flatten

/-- Fuel-indexed worker for global literal replacement: at each position,
when the pattern starts there the replacement is emitted and the match is
skipped, otherwise one character is copied.  The fuel is an upper bound on
the number of remaining characters. -/
def replaceAllGo (pat v : List Char) : Nat → List Char → List Char
  | 0, s => s
  | _ + 1, [] => []
  | fuel + 1, c :: rest =>
    if pat <+: (c :: rest) then
      v ++ replaceAllGo pat v fuel (List.drop (pat.length - 1) rest)
    else c :: replaceAllGo pat v fuel rest

/-- Global replacement of a literal pattern, the semantics of the
`replace` calls with global regexes over literal tokens: leftmost,
non-overlapping, the scan resuming after each match. -/
def replaceAll (pat v s : List Char) : List Char :=
  replaceAllGo pat v s.length s

/-- The placeholder name `ssh_url`. -/
def nameSshUrl : List Char := "ssh_url".toList

/-- The placeholder name `branch`. -/
def nameBranch : List Char := "branch".toList

/-- The placeholder name `repo`. -/
def nameRepo : List Char := "repo".toList

/-- The placeholder name `owner`. -/
def nameOwner : List Char := "owner".toList

/-- The literal token for the `ssh_url` placeholder, braces included. -/
def tokSshUrl : List Char := lbrace :: (nameSshUrl ++ [rbrace])

/-- The literal token for the `branch` placeholder, braces included. -/
def tokBranch : List Char := lbrace :: (nameBranch ++ [rbrace])

/-- The literal token for the `repo` placeholder, braces included. -/
def tokRepo : List Char := lbrace :: (nameRepo ++ [rbrace])

/-- The literal token for the `owner` placeholder, braces included. -/
def tokOwner : List Char := lbrace :: (nameOwner ++ [rbrace])

/-- `buildLauncherUrl(owner, repo, sshUrl, branch)` from the content
script: the settings template with the four recognised tokens globally
replaced, in source order, by the individually percent-encoded values. -/
def buildLauncherUrl (template owner repo sshUrl branch : List Char) :
    List Char :=
  replaceAll tokOwner (encodeURIComponent owner)
    (replaceAll tokRepo (encodeURIComponent repo)
      (replaceAll tokBranch (encodeURIComponent branch)
        (replaceAll tokSshUrl (encodeURIComponent sshUrl) template)))

/-- The older content script's trailing `name` query parameter: appended
only for a truthy workspace name, with the separator chosen by whether the
URL already contains a question mark. -/
def appendNameParam (url wn : List Char) : List Char :=
  if wn ≠ [] then
    url ++ (if '?' ∈ url then "&name=".toList else "?name=".toList) ++
      encodeURIComponent wn
  else url

/-- `buildLauncherUrl(sshUrl, branch, workspaceName)` from the older
content script: only the `ssh_url` and `branch` tokens are replaced and
the workspace name is appended as a query parameter. -/
def buildLauncherUrlOld (template sshUrl branch wn : List Char) :
    List Char :=
  appendNameParam
    (replaceAll tokBranch (encodeURIComponent branch)
      (replaceAll tokSshUrl (encodeURIComponent sshUrl) template)) wn

/-- A structured launcher template: literal text alternating with
brace-delimited placeholders. -/
inductive UrlSeg where
  | lit (s : List Char)
  | ph (n : List Char)
deriving DecidableEq

/-- Flattening of one template segment to its text. -/
def renderSeg : UrlSeg → List Char
  | .lit s => s
  | .ph n => lbrace :: (n ++ [rbrace])

/-- Flattening of a structured template to the template string. -/
def renderTemplate (segs : List UrlSeg) : List Char :=
  (segs.map renderSeg).flatten

/-- Well-formedness of a template segment: literal text contains no opening
brace and placeholder names contain no brace at all, so that the textual
token occurrences are exactly the placeholder segments. -/
def segWF : UrlSeg → Prop
  | .lit s => lbrace ∉ s
  | .ph n => lbrace ∉ n ∧ rbrace ∉ n

/-- Substitution of one placeholder name by a literal value in a segment. -/
def substTok (pname v : List Char) : UrlSeg → UrlSeg
  | .lit s => .lit s
  | .ph n => if n = pname then .lit v else .ph n

/-- The effect of `buildLauncherUrl` on one segment: the four recognised
placeholders become their percent-encoded values and every other segment is
untouched. -/
def resolveSeg (owner repo sshUrl branch : List Char) : UrlSeg → UrlSeg
  | .lit s => .lit s
  | .ph n =>
    if n = nameSshUrl then .lit (encodeURIComponent sshUrl)
    else if n = nameBranch then .lit (encodeURIComponent branch)
    else if n = nameRepo then .lit (encodeURIComponent repo)
    else if n = nameOwner then .lit (encodeURIComponent owner)
    else .ph n

/-- The effect of the older `buildLauncherUrl` on one segment: only
`ssh_url` and `branch` are recognised. -/
def resolveOldSeg (sshUrl branch : List Char) : UrlSeg → UrlSeg
  | .lit s => .lit s
  | .ph n =>
    if n = nameSshUrl then .lit (encodeURIComponent sshUrl)
    else if n = nameBranch then .lit (encodeURIComponent branch)
    else .ph n

/-- The replacement worker is insensitive to the exact fuel as long as the
fuel covers the list length. -/
theorem replaceAllGo_fuel (pat v : List Char) :
    ∀ (f1 : Nat) (f2 : Nat) (s : List Char), s.length ≤ f1 →
      s.length ≤ f2 → replaceAllGo pat v f1 s = replaceAllGo pat v f2 s := by
  intro f1
  induction f1 with
  | zero =>
    intro f2 s hs1 _
    have hnil : s = [] := List.eq_nil_of_length_eq_zero (by omega)
    subst hnil
    cases f2 with
    | zero => rfl
    | succ g => rfl
  | succ f ih =>
    intro f2 s hs1 hs2
    cases s with
    | nil =>
      cases f2 with
      | zero => rfl
      | succ g => rfl
    | cons c rest =>
      cases f2 with
      | zero => simp at hs2
      | succ g =>
        simp only [replaceAllGo]
        by_cases hp : pat <+: (c :: rest)
        · rw [if_pos hp, if_pos hp]
          have hd : (List.drop (pat.length - 1) rest).length ≤ rest.length := by
            rw [List.length_drop]
            omega
        
          have := ih g (List.drop (pat.length - 1) rest)
            (by simp at hs1; omega) (by simp at hs2; omega)
          rw [this]
        · rw [if_neg hp, if_neg hp]
          have := ih g rest (by simp at hs1; omega) (by simp at hs2; omega)
          rw [this]

/-- `replaceAll` on the empty string. -/
theorem replaceAll_nil (pat v : List Char) : replaceAll pat v [] = [] := rfl

/-- `replaceAll` step when the pattern matches at the current position. -/
theorem replaceAll_pos {pat : List Char} (v : List Char) {c : Char}
    {rest : List Char} (h1 : pat ≠ []) (h2 : pat <+: (c :: rest)) :
    replaceAll pat v (c :: rest) =
      v ++ replaceAll pat v (List.drop pat.length (c :: rest)) := by
  unfold replaceAll
  simp only [List.length_cons, replaceAllGo, if_pos h2]
  have hlen : List.drop pat.length (c :: rest) =
      List.drop (pat.length - 1) rest := by
    cases pat with
    | nil => exact absurd rfl h1
    | cons p0 pt => simp [List.drop_succ_cons]
  rw [hlen]
  have hle : (List.drop (pat.length - 1) rest).length ≤ rest.length := by
    rw [List.length_drop]
    omega
  rw [replaceAllGo_fuel pat v rest.length
    (List.drop (pat.length - 1) rest).length _ hle (by omega)]

/-- `replaceAll` step when the pattern does not match at the current
position. -/
theorem replaceAll_neg {pat : List Char} (v : List Char) {c : Char}
    {rest : List Char} (h : ¬(pat <+: (c :: rest))) :
    replaceAll pat v (c :: rest) = c :: replaceAll pat v rest := by
  unfold replaceAll
  simp only [List.length_cons, replaceAllGo, if_neg h]

/-- The replacement scan copies a block that contains no opening brace when
the pattern starts with an opening brace. -/
theorem replaceAll_skip (pname v : List Char) :
    ∀ (s r : List Char), lbrace ∉ s →
      replaceAll (lbrace :: pname) v (s ++ r) =
        s ++ replaceAll (lbrace :: pname) v r := by
  intro s
  induction s with
  | nil => intro r _; rfl
  | cons c s' ih =>
    intro r hs
    have hc : ¬(c = lbrace) := fun h => hs (h ▸ List.mem_cons_self c s')
    have hnp : ¬(lbrace :: pname <+: (c :: (s' ++ r))) := by
      intro hp
      exact hc ((List.cons_prefix_cons.mp hp).1.symm)
    rw [List.cons_append, replaceAll_neg v hnp,
      ih r (fun hm => hs (List.mem_cons_of_mem c hm)), List.cons_append]

/-- The replacement scan fires when the string starts with the pattern. -/
theorem replaceAll_head {pat : List Char} (v : List Char) (r : List Char)
    (h1 : pat ≠ []) :
    replaceAll pat v (pat ++ r) = v ++ replaceAll pat v r := by
  cases pat with
  | nil => exact absurd rfl h1
  | cons p0 pt =>
    rw [List.cons_append,
      replaceAll_pos v h1 (by rw [← List.cons_append]; exact List.prefix_append _ r)]
    rw [← List.cons_append, List.drop_left]

/-- A brace-terminated pattern body never matches inside a differently
named brace-free placeholder body. -/
theorem placeholder_no_match :
    ∀ (p n : List Char) (r : List Char), rbrace ∉ p → rbrace ∉ n →
      ¬(p = n) → ¬(p ++ [rbrace] <+: n ++ rbrace :: r) := by
  intro p
  induction p with
  | nil =>
    intro n r _ hn hne hp
    cases n with
    | nil => exact hne rfl
    | cons c n' =>
      have := (List.cons_prefix_cons.mp hp).1
      exact hn (this ▸ List.mem_cons_self c n')
  | cons a p' ih =>
    intro n r hp hn hne hpre
    cases n with
    | nil =>
      have := (List.cons_prefix_cons.mp hpre).1
      exact hp (this ▸ List.mem_cons_self a p')
    | cons c n' =>
      obtain ⟨hac, htail⟩ := List.cons_prefix_cons.mp hpre
      subst hac
      exact ih n' r (fun hm => hp (List.mem_cons_of_mem a hm))
        (fun hm => hn (List.mem_cons_of_mem a hm))
        (fun he => hne (by rw [he])) htail

/-- Hexadecimal digits are never braces. -/
theorem hexDigitUpper_ne_brace (n : Nat) :
    ¬(hexDigitUpper n = lbrace) ∧ ¬(hexDigitUpper n = rbrace) := by
  unfold hexDigitUpper
  have hm : n % 16 < 16 := Nat.mod_lt _ (by omega)
  set m := n % 16 with hm2
  clear_value m
  interval_cases m <;> exact ⟨by decide, by decide⟩

/-- Percent-encoded output never contains a brace. -/
theorem encodeURIComponent_no_brace {s : List Char} {c : Char}
    (hc : c ∈ encodeURIComponent s) : ¬(c = lbrace) ∧ ¬(c = rbrace) := by
  unfold encodeURIComponent at hc
  rw [List.mem_flatten] at hc
  obtain ⟨piece, hpiece, hcp⟩ := hc
  rw [List.mem_map] at hpiece
  obtain ⟨x, _, hx⟩ := hpiece
  subst hx
  by_cases hu : isUnreservedURI x = true
  · rw [if_pos hu] at hcp
    simp only [List.mem_singleton] at hcp
    subst hcp
    constructor
    · intro h
      rw [h] at hu
      exact absurd hu (by decide)
    · intro h
      rw [h] at hu
      exact absurd hu (by decide)
  · rw [if_neg hu] at hcp
    rw [List.mem_flatten] at hcp
    obtain ⟨esc, hesc, hce⟩ := hcp
    rw [List.mem_map] at hesc
    obtain ⟨b, _, hb⟩ := hesc
    subst hb
    unfold percentByte at hce
    simp only [List.mem_cons, List.not_mem_nil, or_false] at hce
    rcases hce with h | h | h
    · subst h
      exact ⟨by decide, by decide⟩
    · subst h
      exact hexDigitUpper_ne_brace _
    · subst h
      exact hexDigitUpper_ne_brace _

/-- The replacement scan copies a placeholder whose name differs from the
pattern name, when both names are brace-free. -/
theorem replaceAll_skip_ph {pname : List Char} (v : List Char)
    {n : List Char} (r : List Char) (hpn : rbrace ∉ pname)
    (hn1 : lbrace ∉ n) (hn2 : rbrace ∉ n) (hne : ¬(n = pname)) :
    replaceAll (lbrace :: (pname ++ [rbrace])) v
        (lbrace :: (n ++ rbrace :: r)) =
      lbrace :: (n ++ rbrace ::
        replaceAll (lbrace :: (pname ++ [rbrace])) v r) := by
  have hnp : ¬(lbrace :: (pname ++ [rbrace]) <+:
      lbrace :: (n ++ rbrace :: r)) := by
    intro hp
    exact placeholder_no_match pname n r hpn hn2
      (fun he => hne he.symm) (List.cons_prefix_cons.mp hp).2
  rw [replaceAll_neg v hnp]
  have hskip := replaceAll_skip (pname ++ [rbrace]) v n (rbrace :: r) hn1
  rw [hskip]
  have hbr : ¬(lbrace :: (pname ++ [rbrace]) <+: rbrace :: r) := by
    intro hp
    have := (List.cons_prefix_cons.mp hp).1
    exact absurd this (by decide)
  rw [replaceAll_neg v hbr]

/-- `renderTemplate` on a cons cell. -/
theorem renderTemplate_cons (sg : UrlSeg) (rest : List UrlSeg) :
    renderTemplate (sg :: rest) = renderSeg sg ++ renderTemplate rest := by
  unfold renderTemplate
  simp

/-- Substituting one placeholder preserves segment well-formedness as long
as the substituted value is brace-free on the left. -/
theorem substTok_wf {pname v : List Char} (hv : lbrace ∉ v) {sg : UrlSeg}
    (h : segWF sg) : segWF (substTok pname v sg) := by
  cases sg with
  | lit s => exact h
  | ph n =>
    simp only [substTok]
    by_cases hn : n = pname
    · rw [if_pos hn]
      exact hv
    · rw [if_neg hn]
      exact h

/-- Global replacement of one brace-delimited token over a well-formed
structured template substitutes exactly the matching placeholder
segments. -/
theorem replaceAll_renderTemplate (pname v : List Char)
    (hpn : rbrace ∉ pname) (hv : lbrace ∉ v) :
    ∀ segs : List UrlSeg, (∀ sg ∈ segs, segWF sg) →
      replaceAll (lbrace :: (pname ++ [rbrace])) v (renderTemplate segs) =
        renderTemplate (segs.map (substTok pname v)) := by
  intro segs
  induction segs with
  | nil => intro _; rfl
  | cons sg rest ih =>
    intro hwf
    have hwfr : ∀ x ∈ rest, segWF x :=
      fun x hx => hwf x (List.mem_cons_of_mem sg hx)
    have hwfs : segWF sg := hwf sg (List.mem_cons_self sg rest)
    rw [renderTemplate_cons, List.map_cons, renderTemplate_cons]
    cases sg with
    | lit s =>
      simp only [renderSeg, substTok]
      rw [replaceAll_skip (pname ++ [rbrace]) v s (renderTemplate rest)
        hwfs, ih hwfr]
    | ph n =>
      obtain ⟨hn1, hn2⟩ := hwfs
      by_cases hn : n = pname
      · subst hn
        have hshape : renderSeg (UrlSeg.ph n) ++ renderTemplate rest =
            (lbrace :: (n ++ [rbrace])) ++ renderTemplate rest := rfl
        rw [hshape, replaceAll_head v (renderTemplate rest) (by simp),
          ih hwfr]
        simp [substTok, renderSeg]
      · have hshape : renderSeg (UrlSeg.ph n) ++ renderTemplate rest =
            lbrace :: (n ++ rbrace :: renderTemplate rest) := by
          simp [renderSeg]
        rw [hshape, replaceAll_skip_ph v (renderTemplate rest) hpn hn1 hn2 hn,
          ih hwfr]
        simp [substTok, hn, renderSeg]

instance : (sg : UrlSeg) → Decidable (segWF sg)
  | .lit s => inferInstanceAs (Decidable (lbrace ∉ s))
  | .ph n => inferInstanceAs (Decidable (lbrace ∉ n ∧ rbrace ∉ n))

/-- Percent-encoded output never contains an opening brace. -/
theorem encode_no_lbrace (s : List Char) :
    lbrace ∉ encodeURIComponent s :=
  fun h => (encodeURIComponent_no_brace h).1 rfl

/-- Mapping a placeholder substitution preserves well-formedness. -/
theorem segWF_map_substTok (pname : List Char) {v : List Char}
    {segs : List UrlSeg}
    (hv : lbrace ∉ v) (h : ∀ sg ∈ segs, segWF sg) :
    ∀ sg ∈ segs.map (substTok pname v), segWF sg := by
  intro sg hsg
  rw [List.mem_map] at hsg
  obtain ⟨x, hx, rfl⟩ := hsg
  exact substTok_wf hv (h x hx)

/-- The four chained single-token substitutions act on a segment exactly as
the simultaneous lookup. -/
theorem substTok_chain_eq_resolve (owner repo sshUrl branch : List Char)
    (sg : UrlSeg) :
    substTok nameOwner (encodeURIComponent owner)
      (substTok nameRepo (encodeURIComponent repo)
        (substTok nameBranch (encodeURIComponent branch)
          (substTok nameSshUrl (encodeURIComponent sshUrl) sg))) =
      resolveSeg owner repo sshUrl branch sg := by
  cases sg with
  | lit s => rfl
  | ph n =>
    by_cases h1 : n = nameSshUrl
    · simp +decide [substTok, resolveSeg, h1]
    · by_cases h2 : n = nameBranch
      · simp +decide [substTok, resolveSeg, h1, h2]
      · by_cases h3 : n = nameRepo
        · simp +decide [substTok, resolveSeg, h1, h2, h3]
        · by_cases h4 : n = nameOwner
          · simp +decide [substTok, resolveSeg, h1, h2, h3, h4]
          · simp +decide [substTok, resolveSeg, h1, h2, h3, h4]

/-- The older script's two chained substitutions act on a segment exactly
as its simultaneous lookup. -/
theorem substTok_chainOld_eq_resolve (sshUrl branch : List Char)
    (sg : UrlSeg) :
    substTok nameBranch (encodeURIComponent branch)
      (substTok nameSshUrl (encodeURIComponent sshUrl) sg) =
      resolveOldSeg sshUrl branch sg := by
  cases sg with
  | lit s => rfl
  | ph n =>
    by_cases h1 : n = nameSshUrl
    · simp +decide [substTok, resolveOldSeg, h1]
    · by_cases h2 : n = nameBranch
      · simp +decide [substTok, resolveOldSeg, h1, h2]
      · simp +decide [substTok, resolveOldSeg, h1, h2]

/-- C2 (amended): on any well-formed template, `buildLauncherUrl` from the
content script replaces every occurrence of the four recognised tokens
`ssh_url`, `branch`, `repo` and `owner` (braces included) by the
individually percent-encoded values and leaves every literal stretch and
every unrecognised placeholder — including one named `name` — untouched;
the older script's `buildLauncherUrl` recognises only `ssh_url` and
`branch` and appends the workspace name as a `name` query parameter
instead. -/
theorem claim_c2_amended (segs : List UrlSeg) (hwf : ∀ sg ∈ segs, segWF sg)
    (owner repo sshUrl branch wn : List Char) :
    buildLauncherUrl (renderTemplate segs) owner repo sshUrl branch =
      renderTemplate (segs.map (resolveSeg owner repo sshUrl branch)) ∧
    buildLauncherUrlOld (renderTemplate segs) sshUrl branch wn =
      appendNameParam
        (renderTemplate (segs.map (resolveOldSeg sshUrl branch))) wn := by
  have hwf1 := segWF_map_substTok nameSshUrl (encode_no_lbrace sshUrl) hwf
  have hwf2 := segWF_map_substTok nameBranch (encode_no_lbrace branch) hwf1
  have hwf3 := segWF_map_substTok nameRepo (encode_no_lbrace repo) hwf2
  constructor
  · unfold buildLauncherUrl tokSshUrl tokBranch tokRepo tokOwner
    rw [replaceAll_renderTemplate nameSshUrl (encodeURIComponent sshUrl)
        (by decide) (encode_no_lbrace sshUrl) segs hwf,
      replaceAll_renderTemplate nameBranch (encodeURIComponent branch)
        (by decide) (encode_no_lbrace branch) _ hwf1,
      replaceAll_renderTemplate nameRepo (encodeURIComponent repo)
        (by decide) (encode_no_lbrace repo) _ hwf2,
      replaceAll_renderTemplate nameOwner (encodeURIComponent owner)
        (by decide) (encode_no_lbrace owner) _ hwf3]
    rw [List.map_map, List.map_map, List.map_map]
    refine congrArg renderTemplate (List.map_congr_left ?_)
    intro sg _
    simp only [Function.comp_apply]
    exact substTok_chain_eq_resolve owner repo sshUrl branch sg
  · unfold buildLauncherUrlOld tokSshUrl tokBranch
    rw [replaceAll_renderTemplate nameSshUrl (encodeURIComponent sshUrl)
        (by decide) (encode_no_lbrace sshUrl) segs hwf,
      replaceAll_renderTemplate nameBranch (encodeURIComponent branch)
        (by decide) (encode_no_lbrace branch) _ hwf1]
    rw [List.map_map]
    refine congrArg (fun u => appendNameParam u wn)
      (congrArg renderTemplate (List.map_congr_left ?_))
    intro sg _
    simp only [Function.comp_apply]
    exact substTok_chainOld_eq_resolve sshUrl branch sg

/-- The spec's worked example as a structured template: the text
`https://x/` followed by the `repo` placeholder, a slash and the `branch`
placeholder. -/
def exampleSegs : List UrlSeg :=
  [UrlSeg.lit ("https://x/".toList), UrlSeg.ph nameRepo,
    UrlSeg.lit ("/".toList), UrlSeg.ph nameBranch]

/-- C2 (witness): the amended claim evaluated on the spec's worked example,
reproducing the expected percent-encoded URL. -/
theorem claim_c2_amended_witness :
    buildLauncherUrl (renderTemplate exampleSegs) ("own".toList)
        ("a/b".toList) ("g".toList) ("f b".toList) =
      "https://x/a%2Fb/f%20b".toList := by
  have h := (claim_c2_amended exampleSegs (by decide) ("own".toList)
    ("a/b".toList) ("g".toList) ("f b".toList) []).1
  rw [h]
  decide

/-- C2 (counterexample): the claim says the `name` token is among the
recognised placeholders, but `buildLauncherUrl` leaves a template
consisting exactly of that token unchanged instead of substituting the
percent-encoded workspace name. -/
theorem claim_c2_counterexample :
    buildLauncherUrl (lbrace :: ("name".toList ++ [rbrace])) ("o".toList)
        ("r".toList) ("s".toList) ("b".toList) =
      lbrace :: ("name".toList ++ [rbrace]) := by
  decide

/-- The `latest_build` summary of a workspace in a search response. -/
structure Build where
  status : List Char
  transition : List Char
deriving DecidableEq

/-- A workspace record of the search response, restricted to the fields the
background worker reads. -/
structure Workspace where
  name : List Char
  id : List Char
  owner_name : List Char
  template_name : List Char
  latest_build : Option Build
  last_used_at : List Char
deriving DecidableEq

/-- The parsed body of the workspace search response; the `workspaces` key
may be absent, which the worker tolerates through optional chaining. -/
structure SearchBody where
  workspaces : Option (List Workspace)
deriving DecidableEq

/-- The parsed body of the current-user endpoint. -/
structure UserInfo where
  username : List Char
  email : List Char
deriving DecidableEq

/-- A raw template record of the templates response. -/
structure TemplateRaw where
  id : List Char
  name : List Char
  display_name : Option (List Char)
  description : List Char
  icon : List Char
deriving DecidableEq

/-- The template summary assembled by `getTemplates`. -/
structure TemplateInfo where
  id : List Char
  name : List Char
  displayName : List Char
  description : List Char
  icon : List Char
deriving DecidableEq

/-- The outcome of the single HTTP request an operation performs: a parsed
success body, a non-2xx response whose status the thrown error carries, or
a transport failure carrying only a message. -/
inductive ApiOutcome (α : Type) where
  | success (body : α)
  | httpError (status : Nat)
  | networkError (msg : List Char)
deriving DecidableEq

/-- The eight workspace states of the smart-button display. -/
inductive WorkspaceState where
  | running
  | stopped
  | starting
  | stopping
  | failed
  | canceled
  | deleted
  | unknown
deriving DecidableEq

/-- The tagged result of a workspace status check, as sent back to the
content script: the `status` field of the response object. -/
inductive CheckResult where
  | found (workspaceName workspaceId workspaceUrl ownerName
      templateName : List Char) (workspaceState : WorkspaceState)
      (latestBuild : Option (List Char)) (lastUsedAt : List Char)
  | missing (workspaceName : List Char)
  | error (msg : List Char)
  | unconfigured (msg : List Char)
deriving DecidableEq

/-- The result of `verifyConnection`. -/
inductive VerifyResult where
  | ok (username email : List Char)
  | err (msg : List Char)
deriving DecidableEq

/-- The result of `startWorkspace` and `stopWorkspace`. -/
inductive OpResult where
  | ok
  | err (msg : List Char)
deriving DecidableEq

/-- The result of `getTemplates`. -/
inductive TemplatesResult where
  | ok (templates : List TemplateInfo)
  | err (msg : List Char)
deriving DecidableEq

/-- The settings read from `chrome.storage.sync`; absent keys are `none`
and the empty string is falsy, matching the truthiness tests of the
handler. -/
structure Settings where
  gheUrl : Option (List Char)
  launcherUrl : Option (List Char)
  coderUrl : Option (List Char)
  coderApiToken : Option (List Char)
deriving DecidableEq

/-- JavaScript truthiness of an optional string setting. -/
def truthy : Option (List Char) → Bool
  | none => false
  | some s => !s.isEmpty

/-- The generic error message `coderApiRequest` throws for a non-2xx
status. -/
def apiFailMsg (s : Nat) : List Char :=
  "API request failed: ".toList ++ (toString s).toList

/-- The distinct message for an expired or invalid credential. -/
def expiredTokenMsg : List Char := "API token expired or invalid".toList

/-- The message opening `checkWorkspace` uses for every other failure. -/
def checkFailLead : List Char := "Failed to check workspace: ".toList

/-- The message of the unconfigured response. -/
def unconfiguredMsg : List Char := "Coder API not configured".toList

/-- The build-status to `workspaceState` mapping of `checkWorkspace`: the
state starts as `unknown` and is refined by the chain of status
comparisons; the `transition` field is read but not consulted. -/
def workspaceStateOf : Option Build → WorkspaceState
  | none => .unknown
  | some b =>
    if b.status = "running".toList then .running
    else if b.status = "stopped".toList then .stopped
    else if b.status = "starting".toList ∨ b.status = "pending".toList then
      .starting
    else if b.status = "stopping".toList then .stopping
    else if b.status = "failed".toList then .failed
    else if b.status = "canceling".toList ∨ b.status = "canceled".toList then
      .canceled
    else if b.status = "deleting".toList ∨ b.status = "deleted".toList then
      .deleted
    else .unknown

/-- The exact-match filter of `checkWorkspace` over the returned
candidates: the first workspace whose name equals the derived name. -/
def findExact (name : List Char) (wss : List Workspace) : Option Workspace :=
  wss.find? (fun ws => decide (ws.name = name))

/-- `checkWorkspace(coderUrl, apiToken, repo, branch)` from the background
worker, over the outcome of its one search request; the second component
counts the network requests the call performs, which is always the one
search. -/
def checkWorkspace (coderUrl apiToken repo branch : List Char)
    (outcome : ApiOutcome SearchBody) : CheckResult × Nat :=
  let workspaceName := deriveWorkspaceName repo branch
  match outcome with
  | .success body =>
    match (match body.workspaces with
      | some wss => findExact workspaceName wss
      | none => none) with
    | some ws =>
      (.found ws.name ws.id
        (coderUrl ++ "/@".toList ++ ws.owner_name ++ "/".toList ++ ws.name)
        ws.owner_name ws.template_name (workspaceStateOf ws.latest_build)
        (ws.latest_build.map Build.status) ws.last_used_at, 1)
    | none => (.missing workspaceName, 1)
  | .httpError s =>
    (.error (if s = 401 then expiredTokenMsg
      else checkFailLead ++ apiFailMsg s), 1)
  | .networkError m => (.error (checkFailLead ++ m), 1)

/-- Whether a check result carries the `missing` status. -/
def isMissing : CheckResult → Bool
  | .missing _ => true
  | _ => false

/-- The response object of the `CHECK_WORKSPACE` message-handler branch:
the check result plus the optional `launcherUrl` field the handler adds. -/
structure CheckResponse where
  result : CheckResult
  launcherUrl : Option (List Char)
deriving DecidableEq

/-- The `CHECK_WORKSPACE` branch of the message listener: an unconfigured
workspace API short-circuits with no network call; otherwise the check runs
and the launcher template is attached exactly to `missing` results when the
template is truthy.  The second component counts network requests. -/
def handleCheckWorkspace (s : Settings) (repo branch : List Char)
    (outcome : ApiOutcome SearchBody) : CheckResponse × Nat :=
  match s.coderUrl, s.coderApiToken with
  | some cu, some tok =>
    if cu.isEmpty ∨ tok.isEmpty then
      ({ result := .unconfigured unconfiguredMsg, launcherUrl := none }, 0)
    else
      let r := checkWorkspace cu tok repo branch outcome
      ({ result := r.1,
         launcherUrl :=
           match s.launcherUrl with
           | some l => if isMissing r.1 && !l.isEmpty then some l else none
           | none => none }, r.2)
  | _, _ =>
    ({ result := .unconfigured unconfiguredMsg, launcherUrl := none }, 0)

/-- `verifyConnection(coderUrl, apiToken)` over the outcome of its
current-user request. -/
def verifyConnection (coderUrl apiToken : List Char)
    (outcome : ApiOutcome UserInfo) : VerifyResult :=
  match outcome with
  | .success u => .ok u.username u.email
  | .httpError s =>
    .err (if s = 401 then "Invalid API token".toList
      else if s = 404 then "Coder API not found at this URL".toList
      else "Connection failed: ".toList ++ apiFailMsg s)
  | .networkError m => .err ("Connection failed: ".toList ++ m)

/-- `startWorkspace(coderUrl, apiToken, workspaceId)` over the outcome of
its build-transition request. -/
def startWorkspace (coderUrl apiToken workspaceId : List Char)
    (outcome : ApiOutcome Unit) : OpResult :=
  match outcome with
  | .success _ => .ok
  | .httpError s =>
    .err (if s = 401 then expiredTokenMsg
      else "Failed to start workspace: Start workspace failed: ".toList ++
        (toString s).toList)
  | .networkError m => .err ("Failed to start workspace: ".toList ++ m)

/-- `stopWorkspace(coderUrl, apiToken, workspaceId)` over the outcome of
its build-transition request. -/
def stopWorkspace (coderUrl apiToken workspaceId : List Char)
    (outcome : ApiOutcome Unit) : OpResult :=
  match outcome with
  | .success _ => .ok
  | .httpError s =>
    .err (if s = 401 then expiredTokenMsg
      else "Failed to stop workspace: Stop workspace failed: ".toList ++
        (toString s).toList)
  | .networkError m => .err ("Failed to stop workspace: ".toList ++ m)

/-- The per-template summary `getTemplates` assembles; a falsy
`display_name` falls back to the template name. -/
def mapTemplate (t : TemplateRaw) : TemplateInfo :=
  { id := t.id, name := t.name,
    displayName :=
      match t.display_name with
      | some d => if d.isEmpty then t.name else d
      | none => t.name,
    description := t.description, icon := t.icon }

/-- `getTemplates(coderUrl, apiToken)` over the outcome of its templates
request. -/
def getTemplates (coderUrl apiToken : List Char)
    (outcome : ApiOutcome (List TemplateRaw)) : TemplatesResult :=
  match outcome with
  | .success ts => .ok (ts.map mapTemplate)
  | .httpError s => .err (apiFailMsg s)
  | .networkError m => .err m

/-- C3: the candidate filter of `checkWorkspace` selects a workspace only
when its name is exactly the derived name: whatever the remote search
returned, a selected workspace's name equals the name searched for. -/
theorem claim_c3 (n : List Char) (wss : List Workspace) (ws : Workspace)
    (h : findExact n wss = some ws) : ws.name = n := by
  have h2 := List.find?_some h
  exact of_decide_eq_true h2

/-- The `foo-bar` workspace of the exact-match scenario. -/
def wsFooBar : Workspace :=
  { name := "foo-bar".toList, id := "1".toList,
    owner_name := "alice".toList, template_name := "tmpl".toList,
    latest_build := some (Build.mk ("running".toList) ("start".toList)),
    last_used_at := "2024-01-01".toList }

/-- The `foo-bar-2` workspace of the exact-match scenario. -/
def wsFooBarTwo : Workspace :=
  { name := "foo-bar-2".toList, id := "2".toList,
    owner_name := "bob".toList, template_name := "tmpl".toList,
    latest_build := some (Build.mk ("stopped".toList) ("stop".toList)),
    last_used_at := "2024-01-02".toList }

/-- C3 (witness): with candidates `foo-bar` and `foo-bar-2`, searching for
`foo-bar` selects the first and the theorem certifies its name. -/
theorem claim_c3_witness :
    findExact ("foo-bar".toList) [wsFooBar, wsFooBarTwo] = some wsFooBar ∧
      wsFooBar.name = "foo-bar".toList :=
  ⟨by decide,
    claim_c3 ("foo-bar".toList) [wsFooBar, wsFooBarTwo] wsFooBar (by decide)⟩

/-- C4: when the workspace-API base URL or the credential is falsy in the
settings, the `CHECK_WORKSPACE` handler responds `unconfigured` at once and
performs zero network requests. -/
theorem claim_c4 (s : Settings) (repo branch : List Char)
    (outcome : ApiOutcome SearchBody)
    (h : truthy s.coderUrl = false ∨ truthy s.coderApiToken = false) :
    handleCheckWorkspace s repo branch outcome =
      ({ result := .unconfigured unconfiguredMsg, launcherUrl := none }, 0) := by
  cases hcu : s.coderUrl with
  | none => simp [handleCheckWorkspace, hcu]
  | some cu =>
    cases htok : s.coderApiToken with
    | none => simp [handleCheckWorkspace, hcu, htok]
    | some tok =>
      have hemp : cu.isEmpty = true ∨ tok.isEmpty = true := by
        rcases h with h | h
        · rw [hcu] at h
          left
          simpa [truthy] using h
        · rw [htok] at h
          right
          simpa [truthy] using h
      simp only [handleCheckWorkspace, hcu, htok]
      rw [if_pos hemp]

/-- C4 (witness): with no stored settings at all the handler responds
`unconfigured` with zero network requests. -/
theorem claim_c4_witness :
    handleCheckWorkspace ⟨none, none, none, none⟩ ("r".toList) ("b".toList)
        (.httpError 500) =
      ({ result := .unconfigured unconfiguredMsg, launcherUrl := none }, 0) :=
  claim_c4 ⟨none, none, none, none⟩ ("r".toList) ("b".toList)
    (.httpError 500) (Or.inl (by decide))

/-- The build statuses the mapping of `checkWorkspace` recognises. -/
def recognizedStatuses : List (List Char) :=
  ["running".toList, "stopped".toList, "starting".toList, "pending".toList,
    "stopping".toList, "failed".toList, "canceling".toList,
    "canceled".toList, "deleting".toList, "deleted".toList]

/-- C5: the status mapping is total — for every status and transition pair
exactly one of the eight states results (the embedding is a total function
into the eight-state type), with the grouped statuses mapped as the spec's
table prescribes, an absent latest build mapped to `unknown`, and every
unrecognised status mapped to `unknown`; the transition field is never
consulted. -/
theorem claim_c5 (st tr : List Char) :
    workspaceStateOf none = .unknown ∧
    workspaceStateOf (some ⟨"running".toList, tr⟩) = .running ∧
    workspaceStateOf (some ⟨"stopped".toList, tr⟩) = .stopped ∧
    workspaceStateOf (some ⟨"starting".toList, tr⟩) = .starting ∧
    workspaceStateOf (some ⟨"pending".toList, tr⟩) = .starting ∧
    workspaceStateOf (some ⟨"stopping".toList, tr⟩) = .stopping ∧
    workspaceStateOf (some ⟨"failed".toList, tr⟩) = .failed ∧
    workspaceStateOf (some ⟨"canceling".toList, tr⟩) = .canceled ∧
    workspaceStateOf (some ⟨"canceled".toList, tr⟩) = .canceled ∧
    workspaceStateOf (some ⟨"deleting".toList, tr⟩) = .deleted ∧
    workspaceStateOf (some ⟨"deleted".toList, tr⟩) = .deleted ∧
    (st ∉ recognizedStatuses → workspaceStateOf (some ⟨st, tr⟩) = .unknown) := by
  refine ⟨rfl, ?_, ?_, ?_, ?_, ?_, ?_, ?_, ?_, ?_, ?_, ?_⟩
  · simp +decide [workspaceStateOf]
  · simp +decide [workspaceStateOf]
  · simp +decide [workspaceStateOf]
  · simp +decide [workspaceStateOf]
  · simp +decide [workspaceStateOf]
  · simp +decide [workspaceStateOf]
  · simp +decide [workspaceStateOf]
  · simp +decide [workspaceStateOf]
  · simp +decide [workspaceStateOf]
  · simp +decide [workspaceStateOf]
  · intro h
    simp only [recognizedStatuses, List.mem_cons, List.not_mem_nil,
      or_false, not_or] at h
    obtain ⟨h1, h2, h3, h4, h5, h6, h7, h8, h9, h10⟩ := h
    simp at h1 h2 h3 h4 h5 h6 h7 h8 h9 h10
    simp [workspaceStateOf, h1, h2, h3, h4, h5, h6, h7, h8, h9, h10]

/-- C5 (witness): an unrecognised status maps to `unknown`. -/
theorem claim_c5_witness :
    workspaceStateOf (some ⟨"weird".toList, "start".toList⟩) = .unknown :=
  (claim_c5 ("weird".toList)
    ("start".toList)).2.2.2.2.2.2.2.2.2.2.2 (by decide)

/-- C6: an HTTP 401 on the search makes `checkWorkspace` return the error
variant with the distinct expired-or-invalid-credential message, while
every other HTTP status and every transport failure produces the generic
failure message, which never coincides with the distinct one. -/
theorem claim_c6 (cu tok repo branch : List Char) :
    (checkWorkspace cu tok repo branch (.httpError 401)).1 =
      .error expiredTokenMsg ∧
    (∀ s, ¬(s = 401) →
      (checkWorkspace cu tok repo branch (.httpError s)).1 =
        .error (checkFailLead ++ apiFailMsg s) ∧
      ¬(CheckResult.error (checkFailLead ++ apiFailMsg s) =
        .error expiredTokenMsg)) ∧
    (∀ m, (checkWorkspace cu tok repo branch (.networkError m)).1 =
        .error (checkFailLead ++ m) ∧
      ¬(CheckResult.error (checkFailLead ++ m) = .error expiredTokenMsg)) := by
  refine ⟨rfl, ?_, ?_⟩
  · intro s hs
    constructor
    · simp [checkWorkspace, hs]
    · intro h
      simp only [CheckResult.error.injEq] at h
      have h3 : (checkFailLead ++ apiFailMsg s).head? = some 'F' := rfl
      rw [h] at h3
      exact absurd h3 (by decide)
  · intro m
    constructor
    · rfl
    · intro h
      simp only [CheckResult.error.injEq] at h
      have h3 : (checkFailLead ++ m).head? = some 'F' := rfl
      rw [h] at h3
      exact absurd h3 (by decide)

/-- C6 (witness): at status 401 the distinct message appears; at status 500
the result differs from the distinct-message error. -/
theorem claim_c6_witness :
    (checkWorkspace ("c".toList) ("t".toList) ("r".toList) ("b".toList)
        (.httpError 401)).1 = .error expiredTokenMsg ∧
    ¬((checkWorkspace ("c".toList) ("t".toList) ("r".toList) ("b".toList)
        (.httpError 500)).1 = .error expiredTokenMsg) := by
  refine ⟨(claim_c6 ("c".toList) ("t".toList) ("r".toList) ("b".toList)).1, ?_⟩
  have h := (claim_c6 ("c".toList) ("t".toList) ("r".toList)
    ("b".toList)).2.1 500 (by decide)
  rw [h.1]
  exact h.2

/-- C8 (amended): with a configured workspace API, when the exact-name
filter over the search response selects a workspace (the first one carrying
the derived name) whose latest build status is `running`, the handler
responds `found` with workspaceState `running`, the open URL
`{baseUrl}/@{ownerName}/{name}`, and that workspace's id, owner, template
name and last-used timestamp; no launcher URL accompanies a `found`
response. -/
theorem claim_c8_amended (cu tok : List Char) (hcu : cu.isEmpty = false)
    (htok : tok.isEmpty = false) (gu lu : Option (List Char))
    (repo branch : List Char) (wss : List Workspace) (ws : Workspace)
    (b : Build)
    (hfind : findExact (deriveWorkspaceName repo branch) wss = some ws)
    (hbuild : ws.latest_build = some b)
    (hrun : b.status = "running".toList) :
    (handleCheckWorkspace ⟨gu, lu, some cu, some tok⟩ repo branch
        (.success ⟨some wss⟩)).1 =
      { result := .found ws.name ws.id
          (cu ++ "/@".toList ++ ws.owner_name ++ "/".toList ++ ws.name)
          ws.owner_name ws.template_name .running (some ("running".toList))
          ws.last_used_at,
        launcherUrl := none } := by
  have hcheck : checkWorkspace cu tok repo branch (.success ⟨some wss⟩) =
      (.found ws.name ws.id
        (cu ++ "/@".toList ++ ws.owner_name ++ "/".toList ++ ws.name)
        ws.owner_name ws.template_name .running (some ("running".toList))
        ws.last_used_at, 1) := by
    unfold checkWorkspace
    simp only [hfind, hbuild]
    rw [workspaceStateOf]
    simp [hrun]
  simp only [handleCheckWorkspace]
  rw [if_neg (by simp [hcu, htok])]
  rw [hcheck]
  cases lu with
  | none => simp [isMissing]
  | some l => simp [isMissing]

/-- A stopped workspace named `r-b`, first in the search response. -/
def wsStopped : Workspace :=
  { name := "r-b".toList, id := "1".toList, owner_name := "alice".toList,
    template_name := "tmpl".toList,
    latest_build := some (Build.mk ("stopped".toList) ("stop".toList)),
    last_used_at := "2024-01-01".toList }

/-- A running workspace also named `r-b`, second in the search response. -/
def wsRunningTwo : Workspace :=
  { name := "r-b".toList, id := "2".toList, owner_name := "bob".toList,
    template_name := "tmpl".toList,
    latest_build := some (Build.mk ("running".toList) ("start".toList)),
    last_used_at := "2024-01-02".toList }

/-- C8 (counterexample): the search response holds a workspace whose name
equals the derived name `r-b` and whose latest build is `running`, yet the
handler reports the first same-named workspace, whose state is `stopped` —
not the `found`-with-`running` response the claim prescribes for that
workspace. -/
theorem claim_c8_counterexample :
    wsRunningTwo.name = deriveWorkspaceName ("r".toList) ("b".toList) ∧
    wsRunningTwo.latest_build =
      some (Build.mk ("running".toList) ("start".toList)) ∧
    (handleCheckWorkspace ⟨none, none, some ("c".toList), some ("t".toList)⟩
        ("r".toList) ("b".toList)
        (.success ⟨some [wsStopped, wsRunningTwo]⟩)).1.result =
      CheckResult.found ("r-b".toList) ("1".toList)
        ("c/@alice/r-b".toList) ("alice".toList) ("tmpl".toList)
        .stopped (some ("stopped".toList)) ("2024-01-01".toList) ∧
    ¬((handleCheckWorkspace ⟨none, none, some ("c".toList),
          some ("t".toList)⟩ ("r".toList) ("b".toList)
        (.success ⟨some [wsStopped, wsRunningTwo]⟩)).1.result =
      CheckResult.found ("r-b".toList) ("2".toList)
        ("c/@bob/r-b".toList) ("bob".toList) ("tmpl".toList)
        .running (some ("running".toList)) ("2024-01-02".toList)) := by
  refine ⟨by decide, by decide, by decide, by decide⟩

/-- C8 (witness): the amended claim on a concrete configured setting with a
single running workspace named exactly like the derived name. -/
theorem claim_c8_amended_witness :
    (handleCheckWorkspace ⟨none, some ("L".toList), some ("c".toList),
        some ("t".toList)⟩ ("r".toList) ("b".toList)
        (.success ⟨some [wsRunningTwo]⟩)).1 =
      { result := CheckResult.found (wsRunningTwo.name) (wsRunningTwo.id)
          ("c".toList ++ "/@".toList ++ wsRunningTwo.owner_name ++
            "/".toList ++ wsRunningTwo.name)
          (wsRunningTwo.owner_name) (wsRunningTwo.template_name) .running
          (some ("running".toList)) (wsRunningTwo.last_used_at),
        launcherUrl := none } :=
  claim_c8_amended ("c".toList) ("t".toList) (by decide) (by decide) none
    (some ("L".toList)) ("r".toList) ("b".toList) [wsRunningTwo]
    wsRunningTwo (Build.mk ("running".toList) ("start".toList))
    (by decide) (by decide) (by decide)

/-- Whether a check result carries the `found` status. -/
def isFound : CheckResult → Bool
  | .found _ _ _ _ _ _ _ _ => true
  | _ => false

/-- Whether a check result carries the `error` status. -/
def isErrorResult : CheckResult → Bool
  | .error _ => true
  | _ => false

/-- C9: every public operation maps every outcome of its one request —
parsed success body, non-2xx status, or transport failure — to a structured
result value of its result type, the error outcomes landing in the
structured failure variant with the message the source computes; no
outcome is unhandled, so no exception escapes to the caller. -/
theorem claim_c9 (cu tok wid repo branch : List Char) :
    (∀ u, verifyConnection cu tok (.success u) = .ok u.username u.email) ∧
    verifyConnection cu tok (.httpError 401) =
      .err ("Invalid API token".toList) ∧
    verifyConnection cu tok (.httpError 404) =
      .err ("Coder API not found at this URL".toList) ∧
    (∀ s, ¬(s = 401) → ¬(s = 404) → verifyConnection cu tok (.httpError s) =
      .err ("Connection failed: ".toList ++ apiFailMsg s)) ∧
    (∀ m, verifyConnection cu tok (.networkError m) =
      .err ("Connection failed: ".toList ++ m)) ∧
    startWorkspace cu tok wid (.success ()) = .ok ∧
    startWorkspace cu tok wid (.httpError 401) = .err expiredTokenMsg ∧
    (∀ s, ¬(s = 401) → startWorkspace cu tok wid (.httpError s) =
      .err ("Failed to start workspace: Start workspace failed: ".toList ++
        (toString s).toList)) ∧
    (∀ m, startWorkspace cu tok wid (.networkError m) =
      .err ("Failed to start workspace: ".toList ++ m)) ∧
    stopWorkspace cu tok wid (.success ()) = .ok ∧
    stopWorkspace cu tok wid (.httpError 401) = .err expiredTokenMsg ∧
    (∀ s, ¬(s = 401) → stopWorkspace cu tok wid (.httpError s) =
      .err ("Failed to stop workspace: Stop workspace failed: ".toList ++
        (toString s).toList)) ∧
    (∀ m, stopWorkspace cu tok wid (.networkError m) =
      .err ("Failed to stop workspace: ".toList ++ m)) ∧
    (∀ ts, getTemplates cu tok (.success ts) = .ok (ts.map mapTemplate)) ∧
    (∀ s, getTemplates cu tok (.httpError s) = .err (apiFailMsg s)) ∧
    (∀ m, getTemplates cu tok (.networkError m) = .err m) ∧
    (∀ body, isFound (checkWorkspace cu tok repo branch
        (.success body)).1 = true ∨
      isMissing (checkWorkspace cu tok repo branch
        (.success body)).1 = true) ∧
    (∀ s, isErrorResult (checkWorkspace cu tok repo branch
        (.httpError s)).1 = true) ∧
    (∀ m, isErrorResult (checkWorkspace cu tok repo branch
        (.networkError m)).1 = true) := by
  refine ⟨fun u => rfl, rfl, rfl, ?_, fun m => rfl, rfl, rfl, ?_,
    fun m => rfl, rfl, rfl, ?_, fun m => rfl, fun ts => rfl, fun s => rfl,
    fun m => rfl, ?_, fun s => rfl, fun m => rfl⟩
  · intro s h1 h4
    simp [verifyConnection, h1, h4]
  · intro s h1
    simp [startWorkspace, h1]
  · intro s h1
    simp [stopWorkspace, h1]
  · intro body
    unfold checkWorkspace
    cases hw : body.workspaces with
    | none => simp [hw, isMissing]
    | some wss =>
      cases hf : findExact (deriveWorkspaceName repo branch) wss with
      | none => simp [hw, hf, isMissing]
      | some ws => simp [hw, hf, isFound]

/-- C9 (witness): the failure characterisations evaluated at status 500
and at a concrete transport failure. -/
theorem claim_c9_witness :
    verifyConnection ("c".toList) ("t".toList) (.httpError 500) =
      .err ("Connection failed: ".toList ++ apiFailMsg 500) ∧
    startWorkspace ("c".toList) ("t".toList) ("w".toList) (.httpError 500) =
      .err ("Failed to start workspace: Start workspace failed: ".toList ++
        (toString 500).toList) ∧
    stopWorkspace ("c".toList) ("t".toList) ("w".toList) (.httpError 500) =
      .err ("Failed to stop workspace: Stop workspace failed: ".toList ++
        (toString 500).toList) ∧
    isErrorResult (checkWorkspace ("c".toList) ("t".toList) ("r".toList)
      ("b".toList) (.httpError 500)).1 = true := by
  obtain ⟨h1, h2, h3, h4, h5, h6, h7, h8, h9, h10, h11, h12, h13, h14, h15,
    h16, h17, h18, h19⟩ :=
    claim_c9 ("c".toList) ("t".toList) ("w".toList) ("r".toList)
      ("b".toList)
  exact ⟨h4 500 (by decide) (by decide), h8 500 (by decide),
    h12 500 (by decide), h18 500⟩

/-- C10: the `CHECK_WORKSPACE` response carries the stored launcher
template exactly when the check result is `missing` and the template is a
truthy setting; `found`, `error` and `unconfigured` responses never carry
the field. -/
theorem claim_c10 (s : Settings) (repo branch : List Char)
    (outcome : ApiOutcome SearchBody) :
    (∀ l, s.launcherUrl = some l → l.isEmpty = false →
      isMissing (handleCheckWorkspace s repo branch outcome).1.result =
        true →
      (handleCheckWorkspace s repo branch outcome).1.launcherUrl = some l) ∧
    (isMissing (handleCheckWorkspace s repo branch outcome).1.result =
        false →
      (handleCheckWorkspace s repo branch outcome).1.launcherUrl = none) := by
  cases hcu : s.coderUrl with
  | none => simp [handleCheckWorkspace, hcu, isMissing]
  | some cu =>
    cases htok : s.coderApiToken with
    | none => simp [handleCheckWorkspace, hcu, htok, isMissing]
    | some tok =>
      by_cases hemp : cu.isEmpty = true ∨ tok.isEmpty = true
      · have hemp2 : cu = [] ∨ tok = [] := by simpa using hemp
        simp [handleCheckWorkspace, hcu, htok, hemp2, isMissing]
      · have hhandle : handleCheckWorkspace s repo branch outcome =
            ({ result := (checkWorkspace cu tok repo branch outcome).1,
               launcherUrl :=
                 match s.launcherUrl with
                 | some l =>
                   if isMissing (checkWorkspace cu tok repo branch
                       outcome).1 && !l.isEmpty then some l else none
                 | none => none },
              (checkWorkspace cu tok repo branch outcome).2) := by
          simp only [handleCheckWorkspace, hcu, htok]
          rw [if_neg hemp]
        rw [hhandle]
        constructor
        · intro l hl2 hle hmiss
          simp only [] at hmiss
          rw [hl2]
          simp only []
          simp [hmiss, hle]
        · intro hmiss
          simp only [] at hmiss
          cases hl : s.launcherUrl with
          | none => simp
          | some l0 => simp [hmiss]

/-- C10 (witness): a configured check that comes back `missing` with a
stored launcher template carries that template in the response. -/
theorem claim_c10_witness :
    (handleCheckWorkspace ⟨none, some ("L".toList), some ("c".toList),
        some ("t".toList)⟩ ("r".toList) ("b".toList)
        (.success ⟨some []⟩)).1.launcherUrl = some ("L".toList) :=
  (claim_c10 ⟨none, some ("L".toList), some ("c".toList), some ("t".toList)⟩
    ("r".toList) ("b".toList) (.success ⟨some []⟩)).1 ("L".toList) rfl
    (by decide) (by decide)
